import Mathlib

/-!
Verification of the minimal PDF exam-paper generator in
`src/app/exam-papers/generate-pdf/route.ts`.

The TypeScript core is shallowly embedded below.  Strings are modelled as
`List Char` (`Str`); JavaScript string `.length` is char-count, which agrees
with the source for all BMP text.  Page-geometry numbers (margins, page
height, cursor positions) are exact two-decimal point values in the source,
so they are modelled exactly as integer centipoints (value × 100); font
sizes (JS numbers, integral in every call site) are modelled as integers.
`TextEncoder` byte counts are modelled by `utf8Len` (sum of `Char.utf8Size`).
-/

/-- JavaScript string model: a list of characters. -/
abbrev Str := List Char

/-- Character class of the JavaScript regex `\s` (whitespace). -/
def isJsWs (c : Char) : Bool :=
  c = ' ' || c = '\t' || c = '\n' || c = Char.ofNat 11 || c = Char.ofNat 12 ||
  c = '\r' || c = Char.ofNat 0xA0 || c = Char.ofNat 0x1680 ||
  (0x2000 ≤ c.toNat && c.toNat ≤ 0x200A) || c = Char.ofNat 0x2028 ||
  c = Char.ofNat 0x2029 || c = Char.ofNat 0x202F || c = Char.ofNat 0x205F ||
  c = Char.ofNat 0x3000 || c = Char.ofNat 0xFEFF

/-- `input.replace(/\r/g, '')` from `safeText` (route.ts line 29). -/
def stripCR (l : Str) : Str := l.filter (fun c => c ≠ '\r')

/-- JavaScript `str.split(sep)` for a one-character separator
(route.ts line 37: `.split('\n')`): keeps empty segments. -/
def splitOnChar (sep : Char) : Str → List Str
  | [] => [[]]
  | c :: rest =>
    if c = sep then [] :: splitOnChar sep rest
    else
      match splitOnChar sep rest with
      | [] => [[c]]
      | s :: ss => (c :: s) :: ss

/-- Split at every character satisfying `p`, keeping empty segments. -/
def splitOnP (p : Char → Bool) : Str → List Str
  | [] => [[]]
  | c :: rest =>
    if p c then [] :: splitOnP p rest
    else
      match splitOnP p rest with
      | [] => [[c]]
      | s :: ss => (c :: s) :: ss

/-- `para.trim().split(/\s+/).filter(Boolean)` (route.ts line 40): the
whitespace-delimited words of a string.  Splitting a trimmed string on
whitespace runs and dropping empty pieces is the same as splitting at every
whitespace character and dropping empty pieces. -/
def wordsOf (l : Str) : List Str :=
  (splitOnP isJsWs l).filter (fun s => ¬s.isEmpty)

/-- The greedy packing loop of `wrapText` (route.ts lines 45-58).
`line` is the line under construction (initially empty). -/
def packLoop (maxChars : Nat) (line : Str) : List Str → List Str
  | [] => if line.isEmpty then [] else [line]
  | w :: ws =>
    if line.isEmpty then packLoop maxChars w ws
    else if line.length + 1 + w.length ≤ maxChars then
      packLoop maxChars (line ++ ' ' :: w) ws
    else
      line :: packLoop maxChars w ws

/-- Body of the `for (const para of raw)` loop of `wrapText`
(route.ts lines 39-59). -/
def wrapParagraph (maxChars : Nat) (para : Str) : List Str :=
  let words := wordsOf para
  if words.isEmpty then [[]] else packLoop maxChars [] words

/-- `wrapText` on the character-list representation
(route.ts lines 36-61): strip CR, split into paragraphs at LF,
word-wrap each paragraph. -/
def wrapTextL (maxChars : Nat) (text : Str) : List Str :=
  (splitOnChar '\n' (stripCR text)).flatMap (wrapParagraph maxChars)

/-- `wrapText(text, maxChars)` (route.ts lines 36-61). -/
def wrapText (text : String) (maxChars : Nat) : List String :=
  (wrapTextL maxChars text.data).map String.mk

/-- One global single-character replacement, the model of
`s.replace(/c/g, rep)` for a one-character pattern. -/
def replaceChar (target : Char) (rep : Str) : Str → Str
  | [] => []
  | c :: rest => (if c = target then rep else [c]) ++ replaceChar target rep rest

/-- `pdfStringEscape` (route.ts lines 21-24): escape backslashes first,
then parentheses, for PDF literal strings. -/
def pdfStringEscape (l : Str) : Str :=
  replaceChar ')' ['\\', ')'] (replaceChar '(' ['\\', '('] (replaceChar '\\' ['\\', '\\'] l))

/-- Per-character net effect of `pdfStringEscape`. -/
def escChar (c : Char) : Str :=
  if c = '\\' || c = '(' || c = ')' then ['\\', c] else [c]

/-- Scanner for PDF literal strings: returns `true` when the input contains
a parenthesis that is not preceded by an escaping backslash.  The boolean
argument records whether the previous character was an unconsumed
backslash. -/
def hasUnescapedMeta : Bool → Str → Bool
  | _, [] => false
  | true, _ :: rest => hasUnescapedMeta false rest
  | false, c :: rest =>
    if c = '\\' then hasUnescapedMeta true rest
    else if c = '(' || c = ')' then true
    else hasUnescapedMeta false rest

/-- ASCII lower-casing of one character (`String.prototype.toLowerCase`
restricted to the characters that matter for `safeFilename`, whose
keep-set `[a-z0-9]` is ASCII). -/
def jsToLower (c : Char) : Char :=
  if 'A' ≤ c && c ≤ 'Z' then Char.ofNat (c.toNat + 32) else c

/-- ASCII upper-casing of one character. -/
def jsToUpper (c : Char) : Char :=
  if 'a' ≤ c && c ≤ 'z' then Char.ofNat (c.toNat - 32) else c

/-- Characters kept by `safeFilename`: the class `[a-z0-9]`. -/
def isLowerAlnum (c : Char) : Bool :=
  ('a' ≤ c && c ≤ 'z') || ('0' ≤ c && c ≤ '9')

/-- Worker for `collapseNonAlnum`; the boolean records whether the previous
character belonged to a (already replaced) run of characters outside
`[a-z0-9]`. -/
def collapseAux : Bool → Str → Str
  | _, [] => []
  | inRun, c :: rest =>
    if isLowerAlnum c then c :: collapseAux false rest
    else if inRun then collapseAux true rest
    else '-' :: collapseAux true rest

/-- `replace(/[^a-z0-9]+/g, '-')` (route.ts line 339): every maximal run of
characters outside `[a-z0-9]` becomes a single hyphen. -/
def collapseNonAlnum (l : Str) : Str := collapseAux false l

/-- `replace(/(^-|-$)/g, '')` (route.ts line 340): remove one leading and
one trailing hyphen. -/
def stripEdgeHyphens (l : Str) : Str :=
  let l1 := match l with
    | '-' :: rest => rest
    | other => other
  match l1.reverse with
  | '-' :: rest => rest.reverse
  | _ => l1

/-- `safeFilename` (route.ts lines 335-343) on the character-list
representation. -/
def safeFilenameL (l : Str) : Str :=
  let r := (stripEdgeHyphens (collapseNonAlnum (l.map jsToLower))).take 80
  if r.isEmpty then "exam-paper".data else r

/-- `safeFilename(input)` (route.ts lines 335-343). -/
def safeFilename (input : String) : String :=
  String.mk (safeFilenameL input.data)

/-- `toTitleCase` (route.ts lines 32-34): upper-case every `\w` character
preceded by a non-`\w` character (or at the start).  The boolean argument
records whether the previous character was a word character. -/
def toTitleCaseAux (prevIsWord : Bool) : Str → Str
  | [] => []
  | c :: rest =>
    let w := c.isAlphanum || c = '_'
    (if w && ¬prevIsWord then jsToUpper c else c) :: toTitleCaseAux w rest

/-- `toTitleCase(s)` (route.ts lines 32-34). -/
def toTitleCase (l : Str) : Str := toTitleCaseAux false l

/-- `String.fromCharCode` for one code: the argument is reduced modulo
2^16 (ToUint16). -/
def jsFromCharCode (n : Nat) : Char := Char.ofNat (n % 65536)

example : wrapText "hello world again" 11 = ["hello world", "again"] := by decide
example : wrapText "" 10 = [""] := by decide
example : wrapText "a\n\nb" 10 = ["a", "", "b"] := by decide
example : wrapText "abcdefghijkl x" 5 = ["abcdefghijkl", "x"] := by decide
example : pdfStringEscape "a(b)c\\".data = "a\\(b\\)c\\\\".data := by decide
example : safeFilename "Year 5 Maths — Mock #1!" = "year-5-maths-mock-1" := by decide
example : safeFilename "!!!" = "exam-paper" := by decide
example : String.mk (toTitleCase "maths and more".data) = "Maths And More" := by decide

/-- `type Line` (route.ts line 63): a styled text line.  Font sizes are
integral in every call site, so they are modelled as integers. -/
structure Line where
  text : String
  size : Option Int := none
  bold : Option Bool := none
deriving DecidableEq

/-- `type ExamQuestion` (route.ts lines 3-9); `id` is never read by the
core and is omitted.  `correctAnswerIndex` is modelled as an integer. -/
structure ExamQuestion where
  questionText : String
  options : List String
  correctAnswerIndex : Option Int := none
  explanation : Option String := none
deriving DecidableEq

/-- `type ExamPaper` (route.ts lines 11-19). -/
structure ExamPaper where
  title : String
  subject : String
  board : Option String := none
  timeAllowed : Option String := none
  instructions : Option String := none
  passage : Option String := none
  questions : List ExamQuestion
deriving DecidableEq

/-- `safeText` (route.ts lines 26-30) applied to a value that is a string:
only the CR-stripping happens. -/
def safeTextS (s : String) : String := String.mk (stripCR s.data)

/-- `safeText` (route.ts lines 26-30) applied to an optional string:
a missing value yields the fallback, a present one is CR-stripped. -/
def safeTextOpt (input : Option String) (fallback : String) : String :=
  match input with
  | some s => String.mk (stripCR s.data)
  | none => fallback

/-- Lines pushed for one question (route.ts lines 99-112):
the wrapped numbered question text, then the wrapped lettered options,
then a blank line. -/
def questionBlock (idx : Nat) (q : ExamQuestion) : List Line :=
  ((wrapText (toString (idx + 1) ++ ". " ++ safeTextS q.questionText) 92).map
    (fun t => ⟨t, some 11, none⟩)) ++
  (q.options.enum.flatMap (fun jo =>
    (wrapText ("   " ++ String.singleton (jsFromCharCode (65 + jo.1)) ++ ". " ++
        safeTextS jo.2) 88).map
      (fun t => ⟨t, some 10, none⟩))) ++
  [⟨"", none, none⟩]

/-- Lines pushed for one answer-key entry (route.ts lines 118-128):
`"<n>. <letter>"` with the letter at char code `65 + max(0, index)`
(missing index defaults to `0`), then the wrapped explanation when it is
nonempty, then a blank line. -/
def answerBlock (idx : Nat) (q : ExamQuestion) : List Line :=
  let ansIdx : Int := q.correctAnswerIndex.getD 0
  let letter := jsFromCharCode (65 + (max 0 ansIdx).toNat)
  let expl := safeTextOpt q.explanation ""
  ⟨toString (idx + 1) ++ ". " ++ String.singleton letter, some 11, some true⟩ ::
  ((if expl ≠ "" then
      (wrapText ("Explanation: " ++ expl) 92).map (fun t => ⟨t, some 10, none⟩)
    else []) ++
   [⟨"", none, none⟩])

/-- `buildPaperLines` (route.ts lines 65-131). -/
def buildPaperLines (paper : ExamPaper) : List Line :=
  let title := safeTextS paper.title
  let subject := safeTextS paper.subject
  let board := safeTextOpt paper.board "Standard"
  let timeAllowed := safeTextOpt paper.timeAllowed "Not specified"
  let instructions := safeTextOpt paper.instructions
    "Answer all questions. Choose the best answer for each question."
  [(⟨"11 Plus Exam Papers", some 16, some true⟩ : Line),
   ⟨title, some 18, some true⟩,
   ⟨String.mk (toTitleCase subject.data) ++ " • " ++ board ++ " Style", some 12, none⟩,
   ⟨"Time Allowed: " ++ timeAllowed, some 11, none⟩,
   ⟨"Total Questions: " ++ toString paper.questions.length, some 11, none⟩,
   ⟨"", none, none⟩,
   ⟨"Instructions", some 12, some true⟩] ++
  ((wrapText instructions 92).map (fun t => ⟨t, some 10, none⟩)) ++
  [(⟨"", none, none⟩ : Line), ⟨"—", some 10, none⟩, ⟨"", none, none⟩] ++
  (match paper.passage with
   | some s =>
     if s ≠ "" then
       (⟨"Reading Passage", some 12, some true⟩ : Line) ::
       ((wrapText s 92).map (fun t => ⟨t, some 10, none⟩)) ++
       [(⟨"", none, none⟩ : Line)]
     else []
   | none => []) ++
  [(⟨"Questions", some 13, some true⟩ : Line), ⟨"", none, none⟩] ++
  (paper.questions.enum.flatMap (fun iq => questionBlock iq.1 iq.2)) ++
  [(⟨"Answer Key (Parents & Tutors)", some 13, some true⟩ : Line), ⟨"", none, none⟩] ++
  (paper.questions.enum.flatMap (fun iq => answerBlock iq.1 iq.2))

/-!
The page-geometry constants of `buildPdfFromLines` (route.ts lines 136-148),
in centipoints (exact value × 100); font sizes stay in points.
-/

/-- A4 width, 595.28 pt, in centipoints. -/
def PAGE_Wc : Int := 59528
/-- A4 height, 841.89 pt, in centipoints. -/
def PAGE_Hc : Int := 84189
/-- Left margin, 48 pt, in centipoints. -/
def M_LEFTc : Int := 4800
/-- Top margin, 56 pt, in centipoints. -/
def M_TOPc : Int := 5600
/-- Bottom margin, 56 pt, in centipoints. -/
def M_BOTTOMc : Int := 5600
/-- Default font size in points (route.ts line 147). -/
def defaultFontSize : Int := 11
/-- Gap between lines in points (route.ts line 148). -/
def lineGapPts : Int := 3

/-- Decimal digits of a natural number. -/
def natStr (n : Nat) : Str := (toString n).data

/-- Decimal digits of an integer (with sign). -/
def intStr (n : Int) : Str := (toString n).data

/-- Two decimal digits with a leading zero. -/
def pad2 (n : Nat) : Str := if n < 10 then '0' :: natStr n else natStr n

/-- `x.toFixed(2)` for an exact centipoint value. -/
def centToFixed2 (n : Int) : Str :=
  (if n < 0 then ['-'] else []) ++ natStr (n.natAbs / 100) ++ '.' :: pad2 (n.natAbs % 100)

/-- `setFont` (route.ts lines 163-166): pushes `/F1 <size> Tf`. -/
def fontOp (size : Int) : Str := "/F1 ".data ++ intStr size ++ " Tf".data

/-- `moveTo` (route.ts lines 168-170): pushes `<x> <y> Td`. -/
def moveOp (x y : Int) : Str := centToFixed2 x ++ ' ' :: centToFixed2 y ++ " Td".data

/-- `show` (route.ts lines 172-174): pushes `(<escaped text>) Tj`. -/
def showOp (text : String) : Str := '(' :: pdfStringEscape text.data ++ ") Tj".data

/-- The `0 -<lh> Td` op moving the cursor down (route.ts line 209). -/
def tdDownOp (lh : Int) : Str := "0 -".data ++ centToFixed2 lh ++ " Td".data

/-- The mutable layout state of `buildPdfFromLines` (route.ts lines 150-161):
finished pages, the ops of the page under construction, and the cursor. -/
structure Builder where
  pages : List (List Str)
  current : List Str
  y : Int

/-- The state just before the line loop (route.ts lines 184-186):
no finished page; `BT`, default font and initial cursor move pushed. -/
def initBuilder : Builder :=
  { pages := [],
    current := ["BT".data, fontOp defaultFontSize, moveOp M_LEFTc (PAGE_Hc - M_TOPc)],
    y := PAGE_Hc - M_TOPc }

/-- Height consumed by a line in centipoints: `(size ?? 11) + 3` points. -/
def lineHeightCent (ln : Line) : Int := 100 * (ln.size.getD defaultFontSize + lineGapPts)

/-- One iteration of the line loop (route.ts lines 188-211): break the page
when the line does not fit, then push the font change, the show op and the
cursor move. -/
def emitLine (st : Builder) (ln : Line) : Builder :=
  let size := ln.size.getD defaultFontSize
  let lh := 100 * (size + lineGapPts)
  let st1 : Builder :=
    if st.y - lh < M_BOTTOMc then
      { pages := st.pages ++ [st.current ++ ["ET".data]],
        current := ["BT".data, fontOp defaultFontSize, moveOp M_LEFTc (PAGE_Hc - M_TOPc)],
        y := PAGE_Hc - M_TOPc }
    else st
  { pages := st1.pages,
    current := st1.current ++ [fontOp size, showOp ln.text, tdDownOp lh],
    y := st1.y - lh }

/-- The page list built by the line loop of `buildPdfFromLines`
(route.ts lines 184-214), each page being its ops list. -/
def layoutPages (lines : List Line) : List (List Str) :=
  let st := lines.foldl emitLine initBuilder
  st.pages ++ [st.current ++ ["ET".data]]

/-- `TextEncoder().encode(s).length`: the UTF-8 byte count of a string. -/
def utf8Len (l : Str) : Nat := (l.map Char.utf8Size).sum

/-- JavaScript `array.join(sep)`. -/
def joinWith (sep : Str) : List Str → Str
  | [] => []
  | s :: ss => s ++ ss.flatMap (fun t => sep ++ t)

/-- `p.ops.join('\n')` (route.ts line 250). -/
def contentOf (ops : List Str) : Str := joinWith "\n".data ops

/-- A content-stream object body (route.ts line 251). -/
def streamObjBody (content : Str) : Str :=
  "<< /Length ".data ++ natStr (utf8Len content) ++ " >>\nstream\n".data ++
  content ++ "\nendstream".data

/-- A page object body (route.ts lines 257-263); the parent is object 2
(`pagesId`) and the font object 3 (`fontId`). -/
def pageObjBody (contentObjId : Nat) : Str :=
  "<<\n/Type /Page\n/Parent 2 0 R\n/MediaBox [0 0 ".data ++
  centToFixed2 PAGE_Wc ++ ' ' :: centToFixed2 PAGE_Hc ++
  "]\n/Resources << /Font << /F1 3 0 R >> >>\n/Contents ".data ++
  natStr contentObjId ++ " 0 R\n>>".data

/-- The per-page loop (route.ts lines 249-266): for each page, a content
object at id `nextId` and a page object at id `nextId + 1`.  Returns the
object bodies in emission order, the content ids and the page ids. -/
def pageContentObjs (nextId : Nat) : List (List Str) → List Str × List Nat × List Nat
  | [] => ([], [], [])
  | p :: ps =>
    let rest := pageContentObjs (nextId + 2) ps
    (streamObjBody (contentOf p) :: pageObjBody nextId :: rest.1,
     nextId :: rest.2.1,
     (nextId + 1) :: rest.2.2)

/-- The font object body (route.ts line 243). -/
def fontObjBody : Str := "<< /Type /Font /Subtype /Type1 /BaseFont /Helvetica >>".data

/-- The pages object body (route.ts line 277). -/
def pagesObjBody (pageIds : List Nat) : Str :=
  "<< /Type /Pages /Kids [ ".data ++
  joinWith [' '] (pageIds.map (fun id => natStr id ++ " 0 R".data)) ++
  " ] /Count ".data ++ natStr pageIds.length ++ " >>".data

/-- The catalog object body (route.ts line 278); the pages object is 2. -/
def catalogObjBody : Str := "<< /Type /Catalog /Pages 2 0 R >>".data

/-- `finalBodies` (route.ts lines 284-290): catalog (object 1), pages
(object 2), font (object 3), then the interleaved content/page bodies. -/
def finalBodies (lines : List Line) : List Str :=
  let pcs := pageContentObjs 4 (layoutPages lines)
  catalogObjBody :: pagesObjBody pcs.2.2 :: fontObjBody :: pcs.1

/-- `` `${objNum} 0 obj\n${body}\nendobj\n` `` (route.ts line 303). -/
def objStr (num : Nat) (body : Str) : Str :=
  natStr num ++ " 0 obj\n".data ++ body ++ "\nendobj\n".data

/-- The serialized object strings, numbered consecutively from `num`
(route.ts lines 300-307). -/
def objStrsFrom (num : Nat) : List Str → List Str
  | [] => []
  | b :: bs => objStr num b :: objStrsFrom (num + 1) bs

/-- The fixed file header `'%PDF-1.4\n%\xE2\xE3\xCF\xD3\n'`
(route.ts line 293). -/
def headerStr : Str :=
  "%PDF-1.4\n%".data ++
  [Char.ofNat 0xE2, Char.ofNat 0xE3, Char.ofNat 0xCF, Char.ofNat 0xD3] ++ "\n".data

/-- The byte cursor positions at which successive chunks start
(route.ts lines 297-307). -/
def offsetsFrom (cursor : Nat) : List Str → List Nat
  | [] => []
  | s :: ss => cursor :: offsetsFrom (cursor + utf8Len s) ss

/-- The `offsets` array (route.ts lines 298-302): `0` for object 0, then
the byte position of each object string. -/
def pdfOffsets (lines : List Line) : List Nat :=
  0 :: offsetsFrom (utf8Len headerStr) (objStrsFrom 1 (finalBodies lines))

/-- `xrefStart` (route.ts line 309): the byte cursor after all objects. -/
def xrefStartOf (lines : List Line) : Nat :=
  utf8Len headerStr + ((objStrsFrom 1 (finalBodies lines)).map utf8Len).sum

/-- `String(off).padStart(10, '0')` (route.ts line 315). -/
def padLeft10 (n : Nat) : Str :=
  List.replicate (10 - (natStr n).length) '0' ++ natStr n

/-- One cross-reference entry line (route.ts line 315). -/
def xrefEntryLine (off : Nat) : Str := padLeft10 off ++ " 00000 n \n".data

/-- The cross-reference table (route.ts lines 310-316): the subsection
header declaring `finalBodies.length + 1` entries, the object-0 free-list
sentinel, then one entry per object. -/
def xrefStr (lines : List Line) : Str :=
  "xref\n0 ".data ++ natStr ((finalBodies lines).length + 1) ++ "\n".data ++
  "0000000000 65535 f \n".data ++
  ((pdfOffsets lines).drop 1).flatMap xrefEntryLine

/-- The trailer (route.ts line 318): `/Size` is `finalBodies.length + 1`,
the root is object 1, `startxref` is the cursor where the xref begins. -/
def trailerStr (lines : List Line) : Str :=
  "trailer\n<< /Size ".data ++ natStr ((finalBodies lines).length + 1) ++
  " /Root 1 0 R >>\nstartxref\n".data ++ natStr (xrefStartOf lines) ++ "\n%%EOF\n".data

/-- `buildPdfFromLines` (route.ts lines 134-333): the emitted byte stream
(as the character sequence whose UTF-8 encoding the route returns). -/
def buildPdfFromLines (lines : List Line) : Str :=
  headerStr ++ (objStrsFrom 1 (finalBodies lines)).flatten ++
  xrefStr lines ++ trailerStr lines

/-- A parsed JSON value (the result of `req.json()`); numbers are modelled
as integers (the only number the core reads is `correctAnswerIndex`). -/
inductive JsVal where
  | null
  | boolean (b : Bool)
  | num (n : Int)
  | str (s : String)
  | arr (elems : List JsVal)
  | obj (fields : List (String × JsVal))

/-- JavaScript property access `v[k]`: `none` models `undefined`. -/
def getProp : JsVal → String → Option JsVal
  | JsVal.obj fields, k => (fields.find? (fun f => f.1 == k)).map (fun f => f.2)
  | _, _ => none

/-- JavaScript falsiness of a parsed JSON value (`!paper`). -/
def jsFalsy : JsVal → Bool
  | JsVal.null => true
  | JsVal.boolean b => !b
  | JsVal.num n => n == 0
  | JsVal.str s => s == ""
  | _ => false

/-- `safeText` (route.ts lines 26-30) on a raw JSON value: non-strings
(including `undefined`) yield the fallback, strings are CR-stripped. -/
def safeTextJs (input : Option JsVal) (fallback : String) : String :=
  match input with
  | some (JsVal.str s) => String.mk (stripCR s.data)
  | _ => fallback

/-- The required-shape check of `POST` (route.ts lines 356-362), as the
condition for acceptance: the body is truthy, `title` and `subject` are
strings, and `questions` is a nonempty array. -/
def validShape (v : JsVal) : Bool :=
  !(jsFalsy v) &&
  (match getProp v "title" with | some (JsVal.str _) => true | _ => false) &&
  (match getProp v "subject" with | some (JsVal.str _) => true | _ => false) &&
  (match getProp v "questions" with | some (JsVal.arr qs) => !qs.isEmpty | _ => false)

/-- Whether a parsed JSON value is `null`. -/
def jsIsNull : JsVal → Bool
  | JsVal.null => true
  | _ => false

/-- JavaScript property access `v[k]` on a receiver that may be `null`:
accessing a property of `null` throws a TypeError (`Except.error ()`);
`undefined` cannot occur in parsed JSON, and on any other value access is
total (`getProp`).  `getProp` itself is used only where a preceding guard
(`!paper`, truthiness) excludes `null`. -/
def getPropE (v : JsVal) (k : String) : Except Unit (Option JsVal) :=
  match v with
  | JsVal.null => Except.error ()
  | _ => Except.ok (getProp v k)

/-- The per-question normalization of `POST` (route.ts lines 380-385), for
an element on which property access does not throw (any non-`null`
value: a non-object element merely yields `undefined` fields, which the
`safeText`/`Array.isArray`/`typeof` guards turn into defaults). -/
def normalizeQuestion (q : JsVal) : ExamQuestion :=
  { questionText := safeTextJs (getProp q "questionText") "",
    options := (match getProp q "options" with
      | some (JsVal.arr os) => os.map (fun o => safeTextJs (some o) "")
      | _ => []),
    correctAnswerIndex := some (match getProp q "correctAnswerIndex" with
      | some (JsVal.num n) => n
      | _ => 0),
    explanation := some (safeTextJs (getProp q "explanation") "") }

/-- The per-question normalization including the JavaScript error path:
the first property access `q.questionText` (route.ts line 381) throws an
uncaught TypeError when the element is `null`. -/
def normalizeQuestionE (q : JsVal) : Except Unit ExamQuestion := do
  let _ ← getPropE q "questionText"
  pure (normalizeQuestion q)

/-- `paper.questions.map(...)` (route.ts line 380) with the error path:
the map evaluates elements left to right and propagates the first throw. -/
def normalizeQuestionsE : List JsVal → Except Unit (List ExamQuestion)
  | [] => Except.ok []
  | q :: qs => do
    let x ← normalizeQuestionE q
    let xs ← normalizeQuestionsE qs
    pure (x :: xs)

/-- The `questions` array of a body that passed the shape check. -/
def questionsOf (v : JsVal) : List JsVal :=
  match getProp v "questions" with
  | some (JsVal.arr qs) => qs
  | _ => []

/-- The paper normalization of `POST` (route.ts lines 373-386) when no
question element throws: every field-level defect is replaced by a safe
default. -/
def normalizePaper (v : JsVal) : ExamPaper :=
  { title := safeTextJs (getProp v "title") "11+ Exam Paper",
    subject := safeTextJs (getProp v "subject") "Subject",
    board := some (safeTextJs (getProp v "board") "Standard"),
    timeAllowed := some (safeTextJs (getProp v "timeAllowed") "Not specified"),
    instructions := some (safeTextJs (getProp v "instructions") ""),
    passage := some (safeTextJs (getProp v "passage") ""),
    questions := (questionsOf v).map normalizeQuestion }

/-- The paper normalization of `POST` (route.ts lines 373-386) including
the error path of the per-question property accesses. -/
def normalizePaperE (v : JsVal) : Except Unit ExamPaper := do
  let qs ← normalizeQuestionsE (questionsOf v)
  pure { title := safeTextJs (getProp v "title") "11+ Exam Paper",
         subject := safeTextJs (getProp v "subject") "Subject",
         board := some (safeTextJs (getProp v "board") "Standard"),
         timeAllowed := some (safeTextJs (getProp v "timeAllowed") "Not specified"),
         instructions := some (safeTextJs (getProp v "instructions") ""),
         passage := some (safeTextJs (getProp v "passage") ""),
         questions := qs }

/-- `paper.title` as read for the filename (route.ts line 389); the shape
check guarantees it is a string. -/
def rawTitle (v : JsVal) : String :=
  match getProp v "title" with
  | some (JsVal.str s) => s
  | _ => ""

/-- The responses `POST` can produce: a 400 JSON error, a 200 PDF, or the
unhandled exception escaping the handler (only `req.json()` is wrapped in
try/catch, so a TypeError thrown during normalization is not caught and
the framework turns it into a 500 server error). -/
inductive PostResponse where
  | clientError (message : String)
  | pdfOk (bytes : Str) (filename : String)
  | uncaughtError
deriving DecidableEq

/-- The HTTP status of a response (500 for an unhandled exception). -/
def statusOf : PostResponse → Nat
  | PostResponse.clientError _ => 400
  | PostResponse.pdfOk _ _ => 200
  | PostResponse.uncaughtError => 500

/-- `POST` (route.ts lines 345-399).  The argument is the parsed request
body; `none` models a body that is not valid JSON (the `req.json()`
rejection, route.ts lines 347-354).  A TypeError thrown by the
normalization (a `null` questions element) escapes the handler. -/
def POST (body : Option JsVal) : PostResponse :=
  match body with
  | none => PostResponse.clientError "Invalid JSON body"
  | some v =>
    if validShape v then
      match normalizePaperE v with
      | Except.error _ => PostResponse.uncaughtError
      | Except.ok paper =>
        PostResponse.pdfOk
          (buildPdfFromLines (buildPaperLines paper))
          (safeFilename (rawTitle v) ++ ".pdf")
    else
      PostResponse.clientError
        "Body must include { title: string, subject: string, questions: [{ questionText, options[] }] }"

/-- Recognizer for show-text operations among the emitted ops: exactly the
ops produced by `show` (route.ts line 173) start with `(`. -/
def isShowOp (op : Str) : Bool :=
  match op with
  | '(' :: _ => true
  | _ => false

/-- A whitespace-delimited word: nonempty and free of whitespace. -/
def IsWord (w : Str) : Prop := w ≠ [] ∧ ∀ c ∈ w, isJsWs c = false

instance (w : Str) : Decidable (IsWord w) := by
  unfold IsWord; infer_instance

/-- Usable page height in centipoints: 841.89 − 56 − 56 = 729.89 pt. -/
def usableHc : Int := PAGE_Hc - M_TOPc - M_BOTTOMc

/-- Total consumed vertical height in centipoints: the sum over all lines
of fontSize + 3 pt. -/
def totalHeightCent (lines : List Line) : Int := (lines.map lineHeightCent).sum

/-- Modelled from the spec (for the amended claim C3): the incremental
greedy page count — a line whose height exceeds the remaining space of the
current page starts a new page; the count is 1 plus the number of page
breaks. -/
def greedyPages : Int → List Line → Nat
  | _, [] => 1
  | rem, ln :: ls =>
    let lh := lineHeightCent ln
    if rem < lh then 1 + greedyPages (usableHc - lh) ls
    else greedyPages (rem - lh) ls

/-- The spec's single-question example paper. -/
def samplePaper : ExamPaper :=
  { title := "Sample", subject := "maths",
    questions := [{ questionText := "What is 2+2?", options := ["3", "4", "5", "6"],
                    correctAnswerIndex := some 1, explanation := some "2+2=4" }] }

/-- A paper whose single 4-option question has out-of-range answer index 9. -/
def outOfRangePaper : ExamPaper :=
  { title := "Sample", subject := "maths",
    questions := [{ questionText := "Q", options := ["a", "b", "c", "d"],
                    correctAnswerIndex := some 9 }] }

/-- A well-shaped request body used to witness the 200 branch of `POST`. -/
def sampleBody : JsVal :=
  JsVal.obj [("title", JsVal.str "T"), ("subject", JsVal.str "S"),
             ("questions", JsVal.arr [JsVal.obj [("questionText", JsVal.str "Q"),
                                                 ("options", JsVal.arr [JsVal.str "a"])]])]

/-- A body that passes the shape check but whose questions array contains
`null`: the access `q.questionText` (route.ts line 381) then throws. -/
def nullQuestionBody : JsVal :=
  JsVal.obj [("title", JsVal.str "T"), ("subject", JsVal.str "S"),
             ("questions", JsVal.arr [JsVal.null])]

/-- A request body with an empty questions array. -/
def zeroQuestionsBody : JsVal :=
  JsVal.obj [("title", JsVal.str "T"), ("subject", JsVal.str "S"),
             ("questions", JsVal.arr [])]

/-- The three-line input on which claim C3's ceiling formula fails: three
lines of height 400 pt each on a 729.89 pt usable page. -/
def threeTallLines : List Line :=
  [⟨"a", some 397, none⟩, ⟨"a", some 397, none⟩, ⟨"a", some 397, none⟩]

/-! ### Lemmas about the PDF literal-string escaping -/

theorem replaceChar_append (t : Char) (r a b : Str) :
    replaceChar t r (a ++ b) = replaceChar t r a ++ replaceChar t r b := by
  induction a with
  | nil => simp [replaceChar]
  | cons c a ih => simp [replaceChar, ih]

theorem pdfStringEscape_cons (c : Char) (l : Str) :
    pdfStringEscape (c :: l) = escChar c ++ pdfStringEscape l := by
  show replaceChar ')' _ (replaceChar '(' _ (replaceChar '\\' _ (c :: l))) = _
  simp only [replaceChar]
  by_cases h1 : c = '\\'
  · subst h1
    simp [replaceChar_append, replaceChar, escChar, pdfStringEscape]
  · by_cases h2 : c = '('
    · subst h2
      simp [replaceChar_append, replaceChar, escChar, pdfStringEscape]
    · by_cases h3 : c = ')'
      · subst h3
        simp [replaceChar_append, replaceChar, escChar, pdfStringEscape]
      · simp [replaceChar_append, replaceChar, escChar, pdfStringEscape, h1, h2, h3]

theorem pdfStringEscape_eq_flatMap (l : Str) :
    pdfStringEscape l = l.flatMap escChar := by
  induction l with
  | nil => rfl
  | cons c l ih => rw [pdfStringEscape_cons, ih, List.flatMap_cons]

theorem hasUnescapedMeta_flatMap_escChar (l : Str) :
    hasUnescapedMeta false (l.flatMap escChar) = false := by
  induction l with
  | nil => rfl
  | cons c l ih =>
    rw [List.flatMap_cons]
    by_cases h1 : c = '\\'
    · subst h1
      rw [show escChar '\\' = ['\\', '\\'] from rfl]
      simpa [hasUnescapedMeta] using ih
    · by_cases h2 : c = '('
      · subst h2
        rw [show escChar '(' = ['\\', '('] from rfl]
        simpa [hasUnescapedMeta] using ih
      · by_cases h3 : c = ')'
        · subst h3
          rw [show escChar ')' = ['\\', ')'] from rfl]
          simpa [hasUnescapedMeta] using ih
        · rw [show escChar c = [c] by simp [escChar, h1, h2, h3]]
          simpa [hasUnescapedMeta, h1, h2, h3] using ih

/-- C6: the literal string inside a show-text operation is the Line text
with every backslash, `(` and `)` backslash-escaped (backslashes escaped
first), so no unescaped literal-string metacharacter from the input text
appears inside a show-text operation. -/
theorem c6_show_text_escaped (t : String) :
    showOp t = '(' :: pdfStringEscape t.data ++ ") Tj".data ∧
    pdfStringEscape t.data = t.data.flatMap escChar ∧
    hasUnescapedMeta false (pdfStringEscape t.data) = false := by
  refine ⟨rfl, pdfStringEscape_eq_flatMap _, ?_⟩
  rw [pdfStringEscape_eq_flatMap]
  exact hasUnescapedMeta_flatMap_escChar _

/-! ### Lemmas about `safeFilename` -/

theorem mem_collapseAux {c : Char} : ∀ {b : Bool} {l : Str},
    c ∈ collapseAux b l → isLowerAlnum c = true ∨ c = '-' := by
  intro b l
  induction l generalizing b with
  | nil => intro h; simp [collapseAux] at h
  | cons d l ih =>
    intro h
    unfold collapseAux at h
    by_cases hd : isLowerAlnum d
    · rw [if_pos hd] at h
      rcases List.mem_cons.mp h with h | h
      · exact Or.inl (h ▸ hd)
      · exact ih h
    · rw [if_neg hd] at h
      cases b with
      | true => exact ih (by simpa using h)
      | false =>
        rcases List.mem_cons.mp (by simpa using h) with h | h
        · exact Or.inr h
        · exact ih h

theorem mem_stripEdgeHyphens {c : Char} {l : Str} (h : c ∈ stripEdgeHyphens l) : c ∈ l := by
  unfold stripEdgeHyphens at h
  have step1 : ∀ {l1 : Str}, c ∈ (match l1.reverse with
      | '-' :: rest => rest.reverse
      | _ => l1) → c ∈ l1 := by
    intro l1 h1
    split at h1
    next heq =>
      have : c ∈ l1.reverse := by
        rw [heq]
        exact List.mem_cons_of_mem _ (List.mem_reverse.mp h1)
      exact List.mem_reverse.mp this
    next => exact h1
  have h2 := step1 h
  split at h2
  next => exact List.mem_cons_of_mem _ h2
  next => exact h2

theorem safeFilenameL_eq (l : Str) :
    safeFilenameL l = "exam-paper".data ∨
    (safeFilenameL l = (stripEdgeHyphens (collapseNonAlnum (l.map jsToLower))).take 80 ∧
     safeFilenameL l ≠ []) := by
  by_cases h : ((stripEdgeHyphens (collapseNonAlnum (l.map jsToLower))).take 80).isEmpty = true
  · left
    simp [safeFilenameL, h]
  · right
    refine ⟨by simp [safeFilenameL, h], ?_⟩
    simp only [safeFilenameL, h, if_false]
    simpa [List.isEmpty_iff] using h

theorem safeFilenameL_ne_nil (l : Str) : safeFilenameL l ≠ [] := by
  rcases safeFilenameL_eq l with h | ⟨_, h⟩
  · rw [h]; decide
  · exact h

theorem length_safeFilenameL (l : Str) : (safeFilenameL l).length ≤ 80 := by
  rcases safeFilenameL_eq l with h | ⟨h, _⟩
  · rw [h]; decide
  · rw [h]; exact List.length_take_le _ _

theorem mem_safeFilenameL {c : Char} {l : Str} (h : c ∈ safeFilenameL l) :
    isLowerAlnum c = true ∨ c = '-' := by
  rcases safeFilenameL_eq l with he | ⟨he, _⟩
  · rw [he] at h
    have hall : ∀ d ∈ "exam-paper".data, isLowerAlnum d = true ∨ d = '-' := by decide
    exact hall c h
  · rw [he] at h
    exact mem_collapseAux (mem_stripEdgeHyphens (List.take_subset _ _ h))

/-- C9: `safeFilename` lower-cases, collapses non-alphanumeric runs to
single hyphens, strips edge hyphens, truncates to 80 characters and falls
back to `exam-paper` when empty: its output is always nonempty, at most 80
characters, made only of `[a-z0-9]` and `-`; the spec's example title maps
to `year-5-maths-mock-1` and an all-punctuation or empty title falls back
to `exam-paper`. -/
theorem c9_safe_filename (s : String) :
    safeFilename s ≠ "" ∧
    (safeFilename s).length ≤ 80 ∧
    (∀ c ∈ (safeFilename s).data, isLowerAlnum c = true ∨ c = '-') ∧
    safeFilename "Year 5 Maths — Mock #1!" = "year-5-maths-mock-1" ∧
    safeFilename "" = "exam-paper" ∧
    safeFilename "!!!" = "exam-paper" := by
  refine ⟨?_, ?_, ?_, by decide, by decide, by decide⟩
  · intro h
    have : (safeFilename s).data = [] := by rw [h]
    exact safeFilenameL_ne_nil s.data this
  · exact length_safeFilenameL s.data
  · intro c hc
    exact mem_safeFilenameL hc

/-! ### Lemmas about word splitting and greedy wrapping -/

theorem splitOnP_cons_eq (p : Char → Bool) (c : Char) (rest : Str) :
    splitOnP p (c :: rest) =
      if p c = true then [] :: splitOnP p rest
      else match splitOnP p rest with
        | [] => [[c]]
        | s :: ss => (c :: s) :: ss := rfl

theorem splitOnP_cons_pos (p : Char → Bool) {c : Char} (h : p c = true) (rest : Str) :
    splitOnP p (c :: rest) = [] :: splitOnP p rest := by
  rw [splitOnP_cons_eq, if_pos h]

theorem splitOnP_ne_nil (p : Char → Bool) (l : Str) : splitOnP p l ≠ [] := by
  cases l with
  | nil => simp [splitOnP]
  | cons c rest =>
    rw [splitOnP_cons_eq]
    by_cases h : p c = true
    · simp [h]
    · rw [if_neg h]
      cases hx : splitOnP p rest <;> simp

theorem splitOnP_cons_neg (p : Char → Bool) {c : Char} (h : p c = false) (rest : Str) :
    splitOnP p (c :: rest) =
      (c :: (splitOnP p rest).headD []) :: (splitOnP p rest).tail := by
  rw [splitOnP_cons_eq, if_neg (by simp [h])]
  cases hx : splitOnP p rest with
  | nil => exact absurd hx (splitOnP_ne_nil p rest)
  | cons s ss => rfl

theorem splitOnP_append_sep (p : Char → Bool) {sep : Char} (hsep : p sep = true)
    (xs ys : Str) :
    splitOnP p (xs ++ sep :: ys) = splitOnP p xs ++ splitOnP p ys := by
  induction xs with
  | nil => rw [List.nil_append, splitOnP_cons_pos p hsep]; rfl
  | cons c xs ih =>
    rw [List.cons_append]
    by_cases h : p c = true
    · rw [splitOnP_cons_pos p h, splitOnP_cons_pos p h, ih, List.cons_append]
    · have h0 : p c = false := by simpa using h
      rw [splitOnP_cons_neg p h0, splitOnP_cons_neg p h0, ih]
      cases hx : splitOnP p xs with
      | nil => exact absurd hx (splitOnP_ne_nil p xs)
      | cons s ss => simp [hx]

theorem splitOnP_no_sep (p : Char → Bool) {l : Str} (h : ∀ c ∈ l, p c = false) :
    splitOnP p l = [l] := by
  induction l with
  | nil => rfl
  | cons c rest ih =>
    have hc : p c = false := h c (List.mem_cons_self c rest)
    have hrest := ih (fun d hd => h d (List.mem_cons_of_mem c hd))
    rw [splitOnP_cons_neg p hc, hrest]
    rfl

theorem wordsOf_nil : wordsOf [] = [] := rfl

theorem wordsOf_append_sep {sep : Char} (hsep : isJsWs sep = true) (xs ys : Str) :
    wordsOf (xs ++ sep :: ys) = wordsOf xs ++ wordsOf ys := by
  unfold wordsOf
  rw [splitOnP_append_sep isJsWs hsep, List.filter_append]

theorem wordsOf_word {w : Str} (hw : IsWord w) : wordsOf w = [w] := by
  unfold wordsOf
  rw [splitOnP_no_sep isJsWs hw.2]
  simp [List.isEmpty_iff, hw.1]

theorem mem_splitOnP_chars (p : Char → Bool) {l s : Str} (hs : s ∈ splitOnP p l) :
    ∀ c ∈ s, p c = false := by
  induction l generalizing s with
  | nil =>
    simp only [splitOnP, List.mem_singleton] at hs
    subst hs; intro c hc; cases hc
  | cons d rest ih =>
    by_cases h : p d = true
    · rw [splitOnP_cons_pos p h] at hs
      rcases List.mem_cons.mp hs with h0 | h0
      · subst h0; intro c hc; cases hc
      · exact ih h0
    · have h0 : p d = false := by simpa using h
      rw [splitOnP_cons_neg p h0] at hs
      cases hx : splitOnP p rest with
      | nil => exact absurd hx (splitOnP_ne_nil p rest)
      | cons s0 ss =>
        rw [hx] at hs
        rcases List.mem_cons.mp hs with h1 | h1
        · subst h1
          intro c hc
          rcases List.mem_cons.mp hc with h2 | h2
          · subst h2; exact h0
          · exact ih (by rw [hx]; exact List.mem_cons_self s0 ss) c h2
        · exact ih (by rw [hx]; exact List.mem_cons_of_mem s0 h1)

theorem mem_wordsOf_isWord {l w : Str} (hw : w ∈ wordsOf l) : IsWord w := by
  unfold wordsOf at hw
  have h1 := List.mem_filter.mp hw
  refine ⟨by simpa [List.isEmpty_iff] using h1.2, mem_splitOnP_chars isJsWs h1.1⟩

theorem joinWith_cons_cons (sep : Str) (x y : Str) (L : List Str) :
    joinWith sep (x :: y :: L) = x ++ sep ++ joinWith sep (y :: L) := by
  simp [joinWith]

theorem wordsOf_joinWith_space : ∀ L : List Str,
    wordsOf (joinWith [' '] L) = L.flatMap wordsOf
  | [] => rfl
  | [x] => by simp [joinWith]
  | x :: y :: L => by
    rw [joinWith_cons_cons, List.append_assoc, List.singleton_append,
      wordsOf_append_sep (by decide), wordsOf_joinWith_space (y :: L),
      List.flatMap_cons]
    simp [List.flatMap_cons]

theorem flatMap_wordsOf_of_words {ws : List Str} (h : ∀ w ∈ ws, IsWord w) :
    ws.flatMap wordsOf = ws := by
  induction ws with
  | nil => rfl
  | cons w ws ih =>
    rw [List.flatMap_cons, wordsOf_word (h w (List.mem_cons_self w ws)),
      ih (fun v hv => h v (List.mem_cons_of_mem w hv)), List.singleton_append]

theorem packLoop_flatMap_wordsOf (m : Nat) :
    ∀ (ws : List Str) (line : Str), (∀ w ∈ ws, IsWord w) →
    (packLoop m line ws).flatMap wordsOf =
      (if line.isEmpty then [] else wordsOf line) ++ ws.flatMap wordsOf := by
  intro ws
  induction ws with
  | nil =>
    intro line _
    by_cases h : line.isEmpty
    · simp [packLoop, h]
    · simp [packLoop, h]
  | cons w ws ih =>
    intro line hws
    have hw : IsWord w := hws w (List.mem_cons_self w ws)
    have hws' : ∀ v ∈ ws, IsWord v := fun v hv => hws v (List.mem_cons_of_mem w hv)
    unfold packLoop
    by_cases hline : line.isEmpty
    · rw [if_pos hline, ih w hws']
      have : w.isEmpty = false := by simpa [List.isEmpty_iff] using hw.1
      rw [this]
      simp [List.flatMap_cons, hline]
    · rw [if_neg hline]
      by_cases hfit : line.length + 1 + w.length ≤ m
      · rw [if_pos hfit, ih (line ++ ' ' :: w) hws']
        have hne : (line ++ ' ' :: w).isEmpty = false := by
          simp [List.isEmpty_iff]
        rw [hne]
        rw [wordsOf_append_sep (by decide), wordsOf_word hw]
        simp [hline, List.flatMap_cons, wordsOf_word hw]
      · rw [if_neg hfit]
        rw [List.flatMap_cons, ih w hws']
        have : w.isEmpty = false := by simpa [List.isEmpty_iff] using hw.1
        rw [this, wordsOf_word hw]
        simp [hline, List.flatMap_cons, wordsOf_word hw]

theorem wrapParagraph_flatMap_wordsOf (m : Nat) (para : Str) :
    (wrapParagraph m para).flatMap wordsOf = wordsOf para := by
  unfold wrapParagraph
  by_cases h : (wordsOf para).isEmpty
  · rw [if_pos h]
    have : wordsOf para = [] := by simpa [List.isEmpty_iff] using h
    rw [this]
    rfl
  · rw [if_neg h, packLoop_flatMap_wordsOf m (wordsOf para) []
      (fun w hw => mem_wordsOf_isWord hw)]
    simp [flatMap_wordsOf_of_words (fun w hw => mem_wordsOf_isWord hw)]

theorem wrapTextL_flatMap_wordsOf (m : Nat) (t : Str) :
    (wrapTextL m t).flatMap wordsOf =
      (splitOnChar '\n' (stripCR t)).flatMap wordsOf := by
  unfold wrapTextL
  generalize splitOnChar '\n' (stripCR t) = ps
  induction ps with
  | nil => rfl
  | cons q ps ih =>
    rw [List.flatMap_cons, List.flatMap_cons, List.flatMap_append, ih,
      wrapParagraph_flatMap_wordsOf]

theorem string_intercalate_go_data (s : String) :
    ∀ (as : List String) (acc : String),
      (String.intercalate.go acc s as).data =
        acc.data ++ as.flatMap (fun a => s.data ++ a.data) := by
  intro as
  induction as with
  | nil =>
    intro acc
    rw [show String.intercalate.go acc s [] = acc from rfl]
    simp
  | cons a as ih =>
    intro acc
    rw [show String.intercalate.go acc s (a :: as) =
        String.intercalate.go (acc ++ s ++ a) s as from rfl, ih]
    simp [String.data_append, List.flatMap_cons]

theorem intercalate_data (s : String) (L : List String) :
    (String.intercalate s L).data = joinWith s.data (L.map String.data) := by
  cases L with
  | nil => rfl
  | cons a as =>
    rw [show String.intercalate s (a :: as) = String.intercalate.go a s as from rfl,
      string_intercalate_go_data]
    simp [joinWith, List.flatMap_map]

/-- C4: `wrapText` splits on embedded line breaks into paragraphs and each
paragraph into whitespace-delimited words, packs them greedily (as the
embedded definition states), yields a single empty line for an empty
input/paragraph, and joining all output lines with spaces and re-splitting
on whitespace reproduces exactly the original word sequence. -/
theorem c4_wrap_preserves_words (t : String) (m : Nat) :
    wordsOf (String.intercalate " " (wrapText t m)).data =
      (splitOnChar '\n' (stripCR t.data)).flatMap wordsOf ∧
    wrapText "" m = [""] := by
  constructor
  · rw [intercalate_data]
    unfold wrapText
    rw [List.map_map]
    have hid : (wrapTextL m t.data).map (String.data ∘ String.mk) = wrapTextL m t.data := by
      have hcomp : (String.data ∘ String.mk) = id := by funext l; rfl
      rw [hcomp, List.map_id]
    rw [hid, show (" " : String).data = [' '] from rfl,
      wordsOf_joinWith_space, wrapTextL_flatMap_wordsOf]
  · rfl

theorem packLoop_multiword_bound (m : Nat) :
    ∀ (ws : List Str) (line : Str), (∀ w ∈ ws, IsWord w) →
    (2 ≤ (wordsOf line).length → line.length ≤ m) →
    ∀ l ∈ packLoop m line ws, 2 ≤ (wordsOf l).length → l.length ≤ m := by
  intro ws
  induction ws with
  | nil =>
    intro line _ hline l hl
    by_cases h : line.isEmpty
    · simp [packLoop, h] at hl
    · rw [show packLoop m line [] = if line.isEmpty then [] else [line] from rfl,
        if_neg (by simp [h]), List.mem_singleton] at hl
      subst hl
      exact hline
  | cons w ws ih =>
    intro line hws hline l hl
    have hw := hws w (List.mem_cons_self w ws)
    have hws' : ∀ v ∈ ws, IsWord v := fun v hv => hws v (List.mem_cons_of_mem w hv)
    unfold packLoop at hl
    by_cases h0 : line.isEmpty
    · rw [if_pos h0] at hl
      refine ih w hws' ?_ l hl
      intro h2
      rw [wordsOf_word hw] at h2
      simp at h2
    · rw [if_neg h0] at hl
      by_cases hfit : line.length + 1 + w.length ≤ m
      · rw [if_pos hfit] at hl
        refine ih (line ++ ' ' :: w) hws' ?_ l hl
        intro _
        have : (line ++ ' ' :: w).length = line.length + 1 + w.length := by
          simp [List.length_append]
          omega
        omega
      · rw [if_neg hfit] at hl
        rcases List.mem_cons.mp hl with h1 | h1
        · subst h1; exact hline
        · refine ih w hws' ?_ l h1
          intro h2
          rw [wordsOf_word hw] at h2
          simp at h2

theorem wrapTextL_multiword_bound (m : Nat) (t : Str) :
    ∀ l ∈ wrapTextL m t, 2 ≤ (wordsOf l).length → l.length ≤ m := by
  intro l hl
  unfold wrapTextL at hl
  rcases List.mem_flatMap.mp hl with ⟨para, _, hpl⟩
  unfold wrapParagraph at hpl
  by_cases h : (wordsOf para).isEmpty
  · rw [if_pos h, List.mem_singleton] at hpl
    subst hpl
    intro h2
    rw [wordsOf_nil] at h2
    simp at h2
  · rw [if_neg h] at hpl
    exact packLoop_multiword_bound m (wordsOf para) []
      (fun v hv => mem_wordsOf_isWord hv)
      (by intro h2; rw [wordsOf_nil] at h2; simp at h2) l hpl

theorem splitOnChar_cons_eq (sep c : Char) (rest : Str) :
    splitOnChar sep (c :: rest) =
      if c = sep then [] :: splitOnChar sep rest
      else match splitOnChar sep rest with
        | [] => [[c]]
        | s :: ss => (c :: s) :: ss := rfl

theorem splitOnChar_eq_splitOnP (sep : Char) (l : Str) :
    splitOnChar sep l = splitOnP (fun c => c == sep) l := by
  induction l with
  | nil => rfl
  | cons c rest ih =>
    rw [splitOnChar_cons_eq, splitOnP_cons_eq]
    by_cases h : c = sep
    · rw [if_pos h, if_pos (by simp [h]), ih]
    · rw [if_neg h, if_neg (by simp [h]), ih]

theorem isWord_no_cr {w : Str} (hw : IsWord w) : stripCR w = w := by
  unfold stripCR
  rw [List.filter_eq_self]
  intro c hc
  have h1 := hw.2 c hc
  simp only [decide_eq_true_eq]
  intro hcr
  rw [hcr] at h1
  exact absurd h1 (by decide)

theorem isWord_no_lf {w : Str} (hw : IsWord w) : ∀ c ∈ w, (c == '\n') = false := by
  intro c hc
  have h1 := hw.2 c hc
  by_cases h : c = '\n'
  · rw [h] at h1; exact absurd h1 (by decide)
  · simpa using h

theorem wrapTextL_single_word {w : Str} (hw : IsWord w) (m : Nat) :
    wrapTextL m w = [w] := by
  unfold wrapTextL
  rw [isWord_no_cr hw, splitOnChar_eq_splitOnP,
    splitOnP_no_sep _ (isWord_no_lf hw), List.flatMap_cons]
  unfold wrapParagraph
  rw [wordsOf_word hw]
  simp only [List.flatMap_nil, List.append_nil]
  show (if ([w] : List Str).isEmpty = true then [[]] else packLoop m [] [w]) = [w]
  rw [if_neg (by simp), show packLoop m [] [w] = packLoop m w [] from rfl,
    show packLoop m w [] = if w.isEmpty then [] else [w] from rfl,
    if_neg (by simp [List.isEmpty_iff, hw.1])]

/-- C10: `wrapText` never splits inside a word — a single whitespace-free
word longer than `maxChars` is emitted unchanged as its own output line
(so an output line may exceed `maxChars`), and the `maxChars` bound is
guaranteed for every output line containing at least two words. -/
theorem c10_long_word_own_line (t w : String) (m : Nat)
    (hw : IsWord w.data) (_hlong : m < w.length) :
    -- the length hypothesis mirrors the claim; intactness holds for any single word
    (∀ l ∈ wrapText t m, 2 ≤ (wordsOf l.data).length → l.length ≤ m) ∧
    wrapText w m = [w] := by
  constructor
  · intro l hl h2
    unfold wrapText at hl
    rcases List.mem_map.mp hl with ⟨l0, hl0, hmk⟩
    have hdata : l.data = l0 := by rw [← hmk]
    have hlen : l.length = l0.length := by rw [← hmk]; rfl
    rw [hlen]
    exact wrapTextL_multiword_bound m t.data l0 hl0 (by rwa [hdata] at h2)
  · unfold wrapText
    rw [wrapTextL_single_word hw]
    rfl

/-- Closed instance of `c10_long_word_own_line`: the 6-character word
`abcdef` wrapped at width 3 stays intact on its own line, and in
`hello world again` wrapped at 11 the two-word line obeys the bound. -/
theorem c10_long_word_own_line_witness :
    IsWord "abcdef".data ∧ 3 < "abcdef".length ∧
    ((∀ l ∈ wrapText "hello world" 3, 2 ≤ (wordsOf l.data).length → l.length ≤ 3) ∧
     wrapText "abcdef" 3 = ["abcdef"]) :=
  ⟨by decide, by decide,
   c10_long_word_own_line "hello world" "abcdef" 3 (by decide) (by decide)⟩

theorem joinWith_append_single (sep w : Str) :
    ∀ (vs : List Str), vs ≠ [] →
      joinWith sep (vs ++ [w]) = joinWith sep vs ++ sep ++ w
  | [], h => absurd rfl h
  | [v], _ => by simp [joinWith]
  | v :: v2 :: vs, _ => by
    rw [show (v :: v2 :: vs) ++ [w] = v :: v2 :: (vs ++ [w]) from rfl,
      joinWith_cons_cons,
      show (v2 :: (vs ++ [w]) : List Str) = (v2 :: vs) ++ [w] from rfl,
      joinWith_append_single sep w (v2 :: vs) (by simp), joinWith_cons_cons]
    simp [List.append_assoc]

theorem packLoop_mem_join (m : Nat) :
    ∀ (ws : List Str) (line : Str), (∀ w ∈ ws, IsWord w) →
    (line = [] ∨ ∃ vs, vs ≠ [] ∧ (∀ v ∈ vs, IsWord v) ∧ line = joinWith [' '] vs) →
    ∀ l ∈ packLoop m line ws,
      ∃ vs, vs ≠ [] ∧ (∀ v ∈ vs, IsWord v) ∧ l = joinWith [' '] vs := by
  intro ws
  induction ws with
  | nil =>
    intro line _ hline l hl
    by_cases h : line.isEmpty
    · simp [packLoop, h] at hl
    · rw [show packLoop m line [] = if line.isEmpty then [] else [line] from rfl,
        if_neg (by simp [h]), List.mem_singleton] at hl
      subst hl
      rcases hline with h0 | h0
      · rw [h0] at h; simp at h
      · exact h0
  | cons w ws ih =>
    intro line hws hline l hl
    have hw := hws w (List.mem_cons_self w ws)
    have hws' : ∀ v ∈ ws, IsWord v := fun v hv => hws v (List.mem_cons_of_mem w hv)
    unfold packLoop at hl
    by_cases h0 : line.isEmpty
    · rw [if_pos h0] at hl
      exact ih w hws'
        (Or.inr ⟨[w], by simp, by simpa using hw, by simp [joinWith]⟩) l hl
    · rw [if_neg h0] at hl
      have hline' : ∃ vs, vs ≠ [] ∧ (∀ v ∈ vs, IsWord v) ∧ line = joinWith [' '] vs := by
        rcases hline with h1 | h1
        · rw [h1] at h0; simp at h0
        · exact h1
      rcases hline' with ⟨vs, hvs1, hvs2, hvs3⟩
      by_cases hfit : line.length + 1 + w.length ≤ m
      · rw [if_pos hfit] at hl
        refine ih (line ++ ' ' :: w) hws' (Or.inr ⟨vs ++ [w], by simp, ?_, ?_⟩) l hl
        · intro v hv
          rcases List.mem_append.mp hv with h2 | h2
          · exact hvs2 v h2
          · rw [List.mem_singleton] at h2; subst h2; exact hw
        · rw [joinWith_append_single [' '] w vs hvs1, ← hvs3]
          simp [List.append_assoc]
      · rw [if_neg hfit] at hl
        rcases List.mem_cons.mp hl with h1 | h1
        · subst h1; exact ⟨vs, hvs1, hvs2, hvs3⟩
        · exact ih w hws'
            (Or.inr ⟨[w], by simp, by simpa using hw, by simp [joinWith]⟩) l h1

theorem wrapTextL_canonical (m : Nat) (t : Str) :
    ∀ l ∈ wrapTextL m t, l = [] ∨
      ∃ vs, vs ≠ [] ∧ (∀ v ∈ vs, IsWord v) ∧ l = joinWith [' '] vs := by
  intro l hl
  unfold wrapTextL at hl
  rcases List.mem_flatMap.mp hl with ⟨para, _, hpl⟩
  unfold wrapParagraph at hpl
  by_cases h : (wordsOf para).isEmpty
  · rw [if_pos h, List.mem_singleton] at hpl
    exact Or.inl hpl
  · rw [if_neg h] at hpl
    exact Or.inr (packLoop_mem_join m (wordsOf para) []
      (fun v hv => mem_wordsOf_isWord hv) (Or.inl rfl) l hpl)

theorem packLoop_all_fit (m : Nat) :
    ∀ (vs : List Str) (line : Str), line ≠ [] →
    (line ++ vs.flatMap (fun v => ' ' :: v)).length ≤ m →
    packLoop m line vs = [line ++ vs.flatMap (fun v => ' ' :: v)] := by
  intro vs
  induction vs with
  | nil =>
    intro line hne _
    rw [show packLoop m line [] = if line.isEmpty then [] else [line] from rfl,
      if_neg (by simp [List.isEmpty_iff, hne])]
    simp
  | cons v vs ih =>
    intro line hne hlen
    have hsplit : line ++ (v :: vs).flatMap (fun u => ' ' :: u) =
        (line ++ ' ' :: v) ++ vs.flatMap (fun u => ' ' :: u) := by
      rw [List.flatMap_cons, List.append_assoc]
    rw [hsplit] at hlen
    have hfit : line.length + 1 + v.length ≤ m := by
      have h1 := List.length_append (line ++ ' ' :: v) (vs.flatMap (fun u => ' ' :: u))
      have h2 : (line ++ ' ' :: v).length = line.length + 1 + v.length := by
        simp only [List.length_append, List.length_cons]
        omega
      omega
    unfold packLoop
    rw [if_neg (by simp [List.isEmpty_iff, hne]), if_pos hfit,
      ih (line ++ ' ' :: v) (by simp) hlen, hsplit]

theorem wrapParagraph_canonical_fixed (m : Nat) (l : Str)
    (hcan : l = [] ∨ ∃ vs, vs ≠ [] ∧ (∀ v ∈ vs, IsWord v) ∧ l = joinWith [' '] vs)
    (hlen : l.length ≤ m) :
    wrapParagraph m l = [l] := by
  rcases hcan with h | ⟨vs, hne, hw, hj⟩
  · subst h; rfl
  · subst hj
    unfold wrapParagraph
    rw [wordsOf_joinWith_space, flatMap_wordsOf_of_words hw,
      if_neg (by simp [List.isEmpty_iff, hne])]
    cases vs with
    | nil => exact absurd rfl hne
    | cons v vs =>
      have hvw := hw v (List.mem_cons_self v vs)
      have hjoin : joinWith [' '] (v :: vs) = v ++ vs.flatMap (fun u => ' ' :: u) := by
        simp [joinWith]
      rw [show packLoop m [] (v :: vs) = packLoop m v vs from rfl,
        packLoop_all_fit m vs v hvw.1 (by rw [← hjoin]; exact hlen), hjoin]

theorem splitOnP_joinWith (p : Char → Bool) (sep : Char) (hsep : p sep = true) :
    ∀ (L : List Str), L ≠ [] → (∀ l ∈ L, ∀ c ∈ l, p c = false) →
      splitOnP p (joinWith [sep] L) = L
  | [], h, _ => absurd rfl h
  | [x], _, hno => by
    simp only [joinWith, List.flatMap_nil, List.append_nil]
    exact splitOnP_no_sep p (hno x (List.mem_singleton.mpr rfl))
  | x :: y :: L, _, hno => by
    rw [joinWith_cons_cons, List.append_assoc, List.singleton_append,
      splitOnP_append_sep p hsep, splitOnP_no_sep p (hno x (by simp)),
      splitOnP_joinWith p sep hsep (y :: L) (by simp)
        (fun l hl => hno l (List.mem_cons_of_mem x hl))]
    rfl

theorem mem_joinWith {c : Char} (sep : Str) {L : List Str}
    (h : c ∈ joinWith sep L) : (∃ l ∈ L, c ∈ l) ∨ c ∈ sep := by
  cases L with
  | nil => cases h
  | cons x L =>
    rw [show joinWith sep (x :: L) = x ++ L.flatMap (fun t => sep ++ t) from rfl] at h
    rcases List.mem_append.mp h with h1 | h1
    · exact Or.inl ⟨x, List.mem_cons_self x L, h1⟩
    · rcases List.mem_flatMap.mp h1 with ⟨l, hlmem, hcl⟩
      rcases List.mem_append.mp hcl with h2 | h2
      · exact Or.inr h2
      · exact Or.inl ⟨l, List.mem_cons_of_mem x hlmem, h2⟩

theorem canonical_char {l : Str}
    (hcan : l = [] ∨ ∃ vs, vs ≠ [] ∧ (∀ v ∈ vs, IsWord v) ∧ l = joinWith [' '] vs)
    {c : Char} (hc : c ∈ l) : c = ' ' ∨ isJsWs c = false := by
  rcases hcan with h | ⟨vs, _, hw, hj⟩
  · subst h; cases hc
  · subst hj
    rcases mem_joinWith [' '] hc with ⟨v, hv, hcv⟩ | h1
    · exact Or.inr ((hw v hv).2 c hcv)
    · rw [List.mem_singleton] at h1
      exact Or.inl h1

theorem wrapParagraph_ne_nil (m : Nat) (para : Str) : wrapParagraph m para ≠ [] := by
  intro h
  have h1 := wrapParagraph_flatMap_wordsOf m para
  unfold wrapParagraph at h h1
  by_cases he : (wordsOf para).isEmpty
  · rw [if_pos he] at h
    cases h
  · rw [if_neg he] at h
    rw [if_neg he, h] at h1
    have : wordsOf para = [] := by simpa using h1.symm
    rw [this] at he
    simp at he

theorem wrapTextL_ne_nil (m : Nat) (t : Str) : wrapTextL m t ≠ [] := by
  unfold wrapTextL
  cases hx : splitOnChar '\n' (stripCR t) with
  | nil => exact absurd hx (by rw [splitOnChar_eq_splitOnP]; exact splitOnP_ne_nil _ _)
  | cons s ss =>
    rw [List.flatMap_cons]
    intro h
    rcases List.append_eq_nil.mp h with ⟨h1, _⟩
    exact wrapParagraph_ne_nil m s h1

/-- C8: word-wrap is idempotent at a fixed width: when every output line of
`wrapText t m` has length at most `m`, re-wrapping the line-break-joined
output at the same width reproduces exactly the same line count and line
contents. -/
theorem c8_wrapText_idempotent (t : String) (m : Nat)
    (h : ∀ l ∈ wrapText t m, l.length ≤ m) :
    wrapText (String.intercalate "\n" (wrapText t m)) m = wrapText t m := by
  have hLcan := wrapTextL_canonical m t.data
  have hLlen : ∀ l ∈ wrapTextL m t.data, l.length ≤ m := by
    intro l hl
    have h1 := h (String.mk l) (List.mem_map_of_mem String.mk hl)
    simpa using h1
  have hdata : (String.intercalate "\n" (wrapText t m)).data =
      joinWith ['\n'] (wrapTextL m t.data) := by
    rw [intercalate_data]
    unfold wrapText
    rw [List.map_map]
    have hcomp : (String.data ∘ String.mk) = id := by funext l; rfl
    rw [hcomp, List.map_id]
  show (wrapTextL m (String.intercalate "\n" (wrapText t m)).data).map String.mk =
      (wrapTextL m t.data).map String.mk
  rw [hdata]
  set L := wrapTextL m t.data with hLdef
  have hnocr : ∀ c ∈ joinWith ['\n'] L, ¬ c = '\r' := by
    intro c hc
    rcases mem_joinWith ['\n'] hc with ⟨l, hl, hcl⟩ | h1
    · rcases canonical_char (hLcan l hl) hcl with h2 | h2
      · rw [h2]; decide
      · intro hcr; rw [hcr] at h2; exact absurd h2 (by decide)
    · rw [List.mem_singleton] at h1; rw [h1]; decide
  have hstrip : stripCR (joinWith ['\n'] L) = joinWith ['\n'] L := by
    unfold stripCR
    rw [List.filter_eq_self]
    intro c hc
    simpa using hnocr c hc
  have hnolf : ∀ l ∈ L, ∀ c ∈ l, (c == '\n') = false := by
    intro l hl c hcl
    rcases canonical_char (hLcan l hl) hcl with h2 | h2
    · rw [h2]; decide
    · by_cases h3 : c = '\n'
      · rw [h3] at h2; exact absurd h2 (by decide)
      · simpa using h3
  have hsplit : splitOnChar '\n' (joinWith ['\n'] L) = L := by
    rw [splitOnChar_eq_splitOnP]
    exact splitOnP_joinWith _ '\n' (by simp) L (wrapTextL_ne_nil m t.data) hnolf
  have hfix : ∀ (M : List Str),
      (∀ l ∈ M, (l = [] ∨ ∃ vs, vs ≠ [] ∧ (∀ v ∈ vs, IsWord v) ∧
        l = joinWith [' '] vs) ∧ l.length ≤ m) →
      M.flatMap (wrapParagraph m) = M := by
    intro M
    induction M with
    | nil => intro _; rfl
    | cons x M ihM =>
      intro hM
      rw [List.flatMap_cons,
        wrapParagraph_canonical_fixed m x (hM x (List.mem_cons_self x M)).1
          (hM x (List.mem_cons_self x M)).2,
        ihM (fun l hl => hM l (List.mem_cons_of_mem x hl))]
      rfl
  congr 1
  unfold wrapTextL
  rw [hstrip, hsplit]
  exact hfix L (fun l hl => ⟨hLcan l hl, hLlen l hl⟩)

/-- Closed instance of `c8_wrapText_idempotent` at a concrete wrapped
input. -/
theorem c8_wrapText_idempotent_witness :
    (∀ l ∈ wrapText "hello world again" 11, l.length ≤ 11) ∧
    wrapText (String.intercalate "\n" (wrapText "hello world again" 11)) 11 =
      wrapText "hello world again" 11 :=
  ⟨by decide, c8_wrapText_idempotent "hello world again" 11 (by decide)⟩

/-! ### Lemmas about the page layout loop -/

theorem isShowOp_showOp (t : String) : isShowOp (showOp t) = true := rfl

theorem isShowOp_fontOp (size : Int) : isShowOp (fontOp size) = false := rfl

theorem isShowOp_tdDownOp (lh : Int) : isShowOp (tdDownOp lh) = false := rfl

theorem emitLine_shows (st : Builder) (ln : Line) :
    ((emitLine st ln).pages.flatMap (fun pg => pg.filter isShowOp)) ++
      (emitLine st ln).current.filter isShowOp =
    (st.pages.flatMap (fun pg => pg.filter isShowOp)) ++
      st.current.filter isShowOp ++ [showOp ln.text] := by
  simp only [emitLine]
  by_cases hbr : st.y - 100 * (ln.size.getD defaultFontSize + lineGapPts) < M_BOTTOMc
  · rw [if_pos hbr]
    simp only [List.flatMap_append, List.filter_append, List.flatMap_cons,
      List.flatMap_nil, List.append_nil]
    rw [show List.filter isShowOp ["ET".data] = [] from rfl,
      show List.filter isShowOp ["BT".data, fontOp defaultFontSize,
        moveOp M_LEFTc (PAGE_Hc - M_TOPc)] = [] from rfl]
    rw [show List.filter isShowOp [fontOp (ln.size.getD defaultFontSize),
        showOp ln.text, tdDownOp (100 * (ln.size.getD defaultFontSize + lineGapPts))] =
      [showOp ln.text] from by
        simp [List.filter, isShowOp_fontOp, isShowOp_tdDownOp, isShowOp_showOp]]
    simp [List.append_assoc]
  · rw [if_neg hbr]
    simp only [List.filter_append]
    rw [show List.filter isShowOp [fontOp (ln.size.getD defaultFontSize),
        showOp ln.text, tdDownOp (100 * (ln.size.getD defaultFontSize + lineGapPts))] =
      [showOp ln.text] from by
        simp [List.filter, isShowOp_fontOp, isShowOp_tdDownOp, isShowOp_showOp]]
    simp [List.append_assoc]

theorem foldl_emitLine_shows (lines : List Line) :
    ∀ (st : Builder),
    ((lines.foldl emitLine st).pages.flatMap (fun pg => pg.filter isShowOp)) ++
      (lines.foldl emitLine st).current.filter isShowOp =
    (st.pages.flatMap (fun pg => pg.filter isShowOp)) ++
      st.current.filter isShowOp ++ lines.map (fun ln => showOp ln.text) := by
  induction lines with
  | nil => intro st; simp
  | cons ln lines ih =>
    intro st
    rw [List.foldl_cons, ih (emitLine st ln), emitLine_shows st ln]
    simp [List.append_assoc]

/-- C1: the layout loop of `buildPdfFromLines` emits exactly one show-text
operation per input Line, each in exactly one page's ops list, in input
order; the per-page counts sum to the input line count. -/
theorem c1_one_show_per_line (lines : List Line) :
    (layoutPages lines).flatMap (fun pg => pg.filter isShowOp) =
      lines.map (fun ln => showOp ln.text) ∧
    ((layoutPages lines).map (fun pg => (pg.filter isShowOp).length)).sum =
      lines.length := by
  have hmain : (layoutPages lines).flatMap (fun pg => pg.filter isShowOp) =
      lines.map (fun ln => showOp ln.text) := by
    unfold layoutPages
    rw [List.flatMap_append, List.flatMap_cons, List.flatMap_nil, List.append_nil,
      List.filter_append]
    rw [show List.filter isShowOp ["ET".data] = [] from rfl, List.append_nil]
    have h1 := foldl_emitLine_shows lines initBuilder
    rw [show initBuilder.pages = [] from rfl] at h1
    rw [show initBuilder.current.filter isShowOp = [] from rfl] at h1
    simpa using h1
  refine ⟨hmain, ?_⟩
  have h2 : ((layoutPages lines).flatMap (fun pg => pg.filter isShowOp)).length =
      (lines.map (fun ln => showOp ln.text)).length := by rw [hmain]
  rw [List.length_flatMap, List.length_map] at h2
  rw [← h2]
  rfl

theorem emitLine_pages_pos {st : Builder} {ln : Line}
    (hbr : st.y - 100 * (ln.size.getD defaultFontSize + lineGapPts) < M_BOTTOMc) :
    (emitLine st ln).pages = st.pages ++ [st.current ++ ["ET".data]] ∧
    (emitLine st ln).y =
      (PAGE_Hc - M_TOPc) - 100 * (ln.size.getD defaultFontSize + lineGapPts) := by
  constructor <;> (simp only [emitLine]; rw [if_pos hbr])

theorem emitLine_pages_neg {st : Builder} {ln : Line}
    (hbr : ¬ st.y - 100 * (ln.size.getD defaultFontSize + lineGapPts) < M_BOTTOMc) :
    (emitLine st ln).pages = st.pages ∧
    (emitLine st ln).y = st.y - 100 * (ln.size.getD defaultFontSize + lineGapPts) := by
  constructor <;> (simp only [emitLine]; rw [if_neg hbr])

theorem foldl_emitLine_pages_length (lines : List Line) :
    ∀ (st : Builder),
      (lines.foldl emitLine st).pages.length + 1 =
        st.pages.length + greedyPages (st.y - M_BOTTOMc) lines := by
  induction lines with
  | nil => intro st; simp [greedyPages]
  | cons ln lines ih =>
    intro st
    rw [List.foldl_cons, ih (emitLine st ln)]
    simp only [greedyPages]
    by_cases hbr : st.y - 100 * (ln.size.getD defaultFontSize + lineGapPts) < M_BOTTOMc
    · have hgr : st.y - M_BOTTOMc < lineHeightCent ln := by
        unfold lineHeightCent
        omega
      rw [if_pos hgr, (emitLine_pages_pos hbr).1, (emitLine_pages_pos hbr).2]
      have hy : PAGE_Hc - M_TOPc - 100 * (ln.size.getD defaultFontSize + lineGapPts) -
          M_BOTTOMc = usableHc - lineHeightCent ln := by
        unfold usableHc lineHeightCent
        omega
      rw [hy]
      simp only [List.length_append, List.length_cons, List.length_nil]
      omega
    · have hgr : ¬ st.y - M_BOTTOMc < lineHeightCent ln := by
        unfold lineHeightCent
        omega
      rw [if_neg hgr, (emitLine_pages_neg hbr).1, (emitLine_pages_neg hbr).2]
      have hy : st.y - 100 * (ln.size.getD defaultFontSize + lineGapPts) - M_BOTTOMc =
          st.y - M_BOTTOMc - lineHeightCent ln := by
        unfold lineHeightCent
        omega
      rw [hy]

/-- C3 (amended): for every input Line sequence the number of pages the
layout loop produces equals the incremental greedy page count (a new page
starts exactly when the next line's height exceeds the remaining usable
space), not in general the ceiling of total height over usable height. -/
theorem c3_page_count_greedy (lines : List Line) :
    (layoutPages lines).length = greedyPages usableHc lines := by
  unfold layoutPages
  have h := foldl_emitLine_pages_length lines initBuilder
  rw [show initBuilder.pages.length = 0 from rfl,
    show initBuilder.y - M_BOTTOMc = usableHc from by decide] at h
  simp only [List.length_append, List.length_cons, List.length_nil]
  omega

/-- C3 as stated is false: `threeTallLines` (three 397 pt lines, 400 pt
consumed height each) yields 3 pages, while the ceiling of the total
consumed height over the usable height (120000 / 72989 centipoints,
i.e. 1200 pt / 729.89 pt) is 2. -/
theorem c3_ceiling_counterexample :
    ¬ ((layoutPages threeTallLines).length =
        (⌈(totalHeightCent threeTallLines : ℚ) / (usableHc : ℚ)⌉).toNat) := by
  intro h
  have h1 : (layoutPages threeTallLines).length = 3 := by decide
  have h2 : totalHeightCent threeTallLines = 120000 := by decide
  have h3 : (usableHc : ℚ) = 72989 := by norm_num [usableHc, PAGE_Hc, M_TOPc, M_BOTTOMc]
  rw [h1, h2, h3] at h
  have h4 : ((120000 : Int) : ℚ) = 120000 := by norm_num
  rw [h4] at h
  have h5 : (⌈(120000 : ℚ) / 72989⌉ : ℤ) = 2 := by
    rw [Int.ceil_eq_iff]
    constructor <;> norm_num
  rw [h5] at h
  simp at h

/-! ### Lemmas about the PDF serialization -/

theorem utf8Len_append (a b : Str) : utf8Len (a ++ b) = utf8Len a + utf8Len b := by
  unfold utf8Len
  rw [List.map_append, List.sum_append]

theorem utf8Len_flatten : ∀ (ss : List Str), utf8Len ss.flatten = (ss.map utf8Len).sum
  | [] => rfl
  | s :: ss => by
    rw [List.flatten_cons, utf8Len_append, utf8Len_flatten ss, List.map_cons, List.sum_cons]

theorem objStrsFrom_length : ∀ (bs : List Str) (k : Nat),
    (objStrsFrom k bs).length = bs.length
  | [], _ => rfl
  | b :: bs, k => by
    rw [objStrsFrom, List.length_cons, List.length_cons, objStrsFrom_length bs (k + 1)]

theorem offsetsFrom_length : ∀ (ss : List Str) (c : Nat),
    (offsetsFrom c ss).length = ss.length
  | [], _ => rfl
  | s :: ss, c => by
    rw [offsetsFrom, List.length_cons, List.length_cons, offsetsFrom_length ss _]

theorem objStrsFrom_getD : ∀ (bs : List Str) (k i : Nat), i < bs.length →
    (objStrsFrom k bs).getD i [] = objStr (k + i) (bs.getD i [])
  | [], _, i, h => by simp at h
  | b :: bs, k, 0, _ => by simp [objStrsFrom]
  | b :: bs, k, i + 1, h => by
    rw [objStrsFrom]
    simp only [List.getD_cons_succ]
    rw [objStrsFrom_getD bs (k + 1) i (by simpa using h),
      show k + 1 + i = k + (i + 1) from by omega]

theorem offsetsFrom_split : ∀ (ss : List Str) (cursor i : Nat), i < ss.length →
    ∃ pre post, ss.flatten = pre ++ ss.getD i [] ++ post ∧
      cursor + utf8Len pre = (offsetsFrom cursor ss).getD i 0
  | [], _, i, h => absurd h (by simp)
  | s :: ss, cursor, 0, _ =>
    ⟨[], ss.flatten, by simp [List.flatten_cons], by simp [offsetsFrom, utf8Len]⟩
  | s :: ss, cursor, i + 1, h => by
    obtain ⟨pre, post, h1, h2⟩ :=
      offsetsFrom_split ss (cursor + utf8Len s) i (by simpa using h)
    refine ⟨s ++ pre, post, ?_, ?_⟩
    · rw [List.flatten_cons, h1]
      simp [List.append_assoc, List.getD_cons_succ]
    · rw [utf8Len_append, offsetsFrom]
      simp only [List.getD_cons_succ]
      omega

/-- C2: the cross-reference table of the emitted byte stream declares
`finalBodies.length + 1` entries (object 0 being the free-list sentinel),
the trailer's `/Size` is the same count, each object's recorded offset is
the exact byte position where `\<i\> 0 obj` begins, and `startxref` is the
byte offset where the xref table begins. -/
theorem c2_xref_correct (lines : List Line) :
    (pdfOffsets lines).length = (finalBodies lines).length + 1 ∧
    (pdfOffsets lines).getD 0 0 = 0 ∧
    xrefStr lines =
      "xref\n0 ".data ++ natStr ((finalBodies lines).length + 1) ++ "\n".data ++
      "0000000000 65535 f \n".data ++
      ((pdfOffsets lines).drop 1).flatMap xrefEntryLine ∧
    ((pdfOffsets lines).drop 1).length = (finalBodies lines).length ∧
    trailerStr lines =
      "trailer\n<< /Size ".data ++ natStr ((finalBodies lines).length + 1) ++
      " /Root 1 0 R >>\nstartxref\n".data ++ natStr (xrefStartOf lines) ++
      "\n%%EOF\n".data ∧
    (∃ pre, buildPdfFromLines lines = pre ++ xrefStr lines ++ trailerStr lines ∧
      utf8Len pre = xrefStartOf lines) ∧
    ∀ i, i < (finalBodies lines).length →
      ∃ pre post,
        buildPdfFromLines lines =
          pre ++ objStr (i + 1) ((finalBodies lines).getD i []) ++ post ∧
        utf8Len pre = (pdfOffsets lines).getD (i + 1) 0 ∧
        objStr (i + 1) ((finalBodies lines).getD i []) =
          natStr (i + 1) ++ " 0 obj\n".data ++ (finalBodies lines).getD i [] ++
          "\nendobj\n".data := by
  refine ⟨?_, rfl, rfl, ?_, rfl, ?_, ?_⟩
  · rw [pdfOffsets, List.length_cons, offsetsFrom_length, objStrsFrom_length]
  · rw [pdfOffsets, List.drop_one, List.tail_cons, offsetsFrom_length, objStrsFrom_length]
  · refine ⟨headerStr ++ (objStrsFrom 1 (finalBodies lines)).flatten, ?_, ?_⟩
    · rw [buildPdfFromLines]
    · rw [utf8Len_append, utf8Len_flatten, xrefStartOf]
  · intro i hi
    have hlen : i < (objStrsFrom 1 (finalBodies lines)).length := by
      rw [objStrsFrom_length]; exact hi
    obtain ⟨pre, post, h1, h2⟩ :=
      offsetsFrom_split (objStrsFrom 1 (finalBodies lines)) (utf8Len headerStr) i hlen
    rw [objStrsFrom_getD (finalBodies lines) 1 i hi] at h1
    refine ⟨headerStr ++ pre, post ++ xrefStr lines ++ trailerStr lines, ?_, ?_, rfl⟩
    · rw [buildPdfFromLines, h1, show 1 + i = i + 1 from by omega]
      simp [List.append_assoc]
    · rw [utf8Len_append, pdfOffsets]
      simp only [List.getD_cons_succ]
      exact h2

/-- Closed instance of `c2_xref_correct`: in the empty-input document the
first object string sits exactly at the recorded offset of object 1. -/
theorem c2_xref_correct_witness :
    0 < (finalBodies []).length ∧
    (∃ pre post,
        buildPdfFromLines [] =
          pre ++ objStr (0 + 1) ((finalBodies []).getD 0 []) ++ post ∧
        utf8Len pre = (pdfOffsets []).getD (0 + 1) 0 ∧
        objStr (0 + 1) ((finalBodies []).getD 0 []) =
          natStr (0 + 1) ++ " 0 obj\n".data ++ (finalBodies []).getD 0 [] ++
          "\nendobj\n".data) :=
  ⟨by decide, (c2_xref_correct []).2.2.2.2.2.2 0 (by decide)⟩

/-- C5: the answer-key line for each question is its 1-based ordinal, a
period, and the letter at char code 65 + max(0, correctAnswerIndex) — the
index is clamped below at 0 (missing index defaults to 0 / letter A) but
not bounded by the option count, so index 9 on the 4-option
`outOfRangePaper` yields letter J, and the spec's `samplePaper` example
yields letter B with explanation line `Explanation: 2+2=4`. -/
theorem c5_answer_key_letter (p : ExamPaper) (i : Nat)
    (h : i < p.questions.length) :
    (⟨toString (i + 1) ++ ". " ++ String.singleton (jsFromCharCode
        (65 + (max 0 ((p.questions.getD i ⟨"", [], none, none⟩).correctAnswerIndex.getD 0)).toNat)),
      some 11, some true⟩ : Line) ∈ buildPaperLines p ∧
    (⟨"1. B", some 11, some true⟩ : Line) ∈ buildPaperLines samplePaper ∧
    (⟨"Explanation: 2+2=4", some 10, none⟩ : Line) ∈ buildPaperLines samplePaper ∧
    (⟨"1. J", some 11, some true⟩ : Line) ∈ buildPaperLines outOfRangePaper := by
  refine ⟨?_, by decide, by decide, by decide⟩
  have hlen : i < p.questions.enum.length := by rw [List.enum_length]; exact h
  have hmem : p.questions.enum[i] ∈ p.questions.enum := List.getElem_mem hlen
  rw [List.getElem_enum] at hmem
  have hgetD : p.questions.getD i ⟨"", [], none, none⟩ = p.questions[i] :=
    List.getD_eq_getElem p.questions _ h
  have hblock : (⟨toString (i + 1) ++ ". " ++ String.singleton (jsFromCharCode
        (65 + (max 0 ((p.questions[i]).correctAnswerIndex.getD 0)).toNat)),
      some 11, some true⟩ : Line) ∈ answerBlock i (p.questions[i]) :=
    List.mem_cons_self _ _
  have hflat : (⟨toString (i + 1) ++ ". " ++ String.singleton (jsFromCharCode
        (65 + (max 0 ((p.questions[i]).correctAnswerIndex.getD 0)).toNat)),
      some 11, some true⟩ : Line) ∈
      p.questions.enum.flatMap (fun iq => answerBlock iq.1 iq.2) :=
    List.mem_flatMap.mpr ⟨(i, p.questions[i]), hmem, hblock⟩
  rw [hgetD]
  simp only [buildPaperLines, List.mem_append]
  tauto

/-- Closed instance of `c5_answer_key_letter` at the spec's example. -/
theorem c5_answer_key_letter_witness :
    0 < samplePaper.questions.length ∧
    ((⟨toString (0 + 1) ++ ". " ++ String.singleton (jsFromCharCode
        (65 + (max 0 ((samplePaper.questions.getD 0 ⟨"", [], none, none⟩).correctAnswerIndex.getD 0)).toNat)),
      some 11, some true⟩ : Line) ∈ buildPaperLines samplePaper ∧
    (⟨"1. B", some 11, some true⟩ : Line) ∈ buildPaperLines samplePaper ∧
    (⟨"Explanation: 2+2=4", some 10, none⟩ : Line) ∈ buildPaperLines samplePaper ∧
    (⟨"1. J", some 11, some true⟩ : Line) ∈ buildPaperLines outOfRangePaper) :=
  ⟨by decide, c5_answer_key_letter samplePaper 0 (by decide)⟩

theorem normalizeQuestionE_ok {q : JsVal} (h : jsIsNull q = false) :
    normalizeQuestionE q = Except.ok (normalizeQuestion q) := by
  cases q <;> first
    | rfl
    | exact absurd h (by simp [jsIsNull])

theorem normalizeQuestionE_null : normalizeQuestionE JsVal.null = Except.error () := rfl

theorem normalizeQuestionsE_ok : ∀ {qs : List JsVal},
    (∀ q ∈ qs, jsIsNull q = false) →
    normalizeQuestionsE qs = Except.ok (qs.map normalizeQuestion) := by
  intro qs
  induction qs with
  | nil => intro _; rfl
  | cons q qs ih =>
    intro h
    show (do
      let x ← normalizeQuestionE q
      let xs ← normalizeQuestionsE qs
      pure (x :: xs) : Except Unit (List ExamQuestion)) = _
    rw [normalizeQuestionE_ok (h q (List.mem_cons_self q qs)),
      ih (fun v hv => h v (List.mem_cons_of_mem q hv))]
    rfl

theorem normalizeQuestionsE_error : ∀ {qs : List JsVal},
    (∃ q ∈ qs, jsIsNull q = true) →
    normalizeQuestionsE qs = Except.error () := by
  intro qs
  induction qs with
  | nil =>
    intro h
    rcases h with ⟨q, hq, _⟩
    cases hq
  | cons q qs ih =>
    intro h
    show (do
      let x ← normalizeQuestionE q
      let xs ← normalizeQuestionsE qs
      pure (x :: xs) : Except Unit (List ExamQuestion)) = _
    by_cases hq : jsIsNull q = true
    · have : q = JsVal.null := by
        cases q <;> simp [jsIsNull] at hq ⊢
      rw [this, normalizeQuestionE_null]
      rfl
    · rcases h with ⟨q0, hq0, hnull⟩
      rcases List.mem_cons.mp hq0 with h1 | h1
      · rw [h1] at hnull
        exact absurd hnull hq
      · rw [normalizeQuestionE_ok (by simpa using hq), ih ⟨q0, h1, hnull⟩]
        rfl

theorem normalizePaperE_ok {v : JsVal} (h : ∀ q ∈ questionsOf v, jsIsNull q = false) :
    normalizePaperE v = Except.ok (normalizePaper v) := by
  show (do
    let qs ← normalizeQuestionsE (questionsOf v)
    pure _ : Except Unit ExamPaper) = _
  rw [normalizeQuestionsE_ok h]
  rfl

theorem normalizePaperE_error {v : JsVal} (h : ∃ q ∈ questionsOf v, jsIsNull q = true) :
    normalizePaperE v = Except.error () := by
  show (do
    let qs ← normalizeQuestionsE (questionsOf v)
    pure _ : Except Unit ExamPaper) = _
  rw [normalizeQuestionsE_error h]
  rfl

/-- C7 as stated is false of the program: the body
`{"title":"T","subject":"S","questions":[null]}` passes the required-shape
check, yet `POST` does not return a 200 PDF (nor a 400): the access
`q.questionText` on the `null` element throws an uncaught TypeError and
the request fails with a server error. -/
theorem c7_null_question_counterexample :
    validShape nullQuestionBody = true ∧
    POST (some nullQuestionBody) = PostResponse.uncaughtError ∧
    ¬ statusOf (POST (some nullQuestionBody)) = 200 ∧
    ¬ statusOf (POST (some nullQuestionBody)) = 400 := by
  refine ⟨by decide, by decide, by decide, by decide⟩

/-- C7 (amended): `POST` returns the 400 client error exactly when the
body fails to parse or fails the required-shape check (a zero-question
paper is rejected); a body passing the check whose questions array
contains a `null` element makes the normalization throw an uncaught
TypeError (an unhandled server error, not a 200); every other body passing
the check yields the 200 PDF response with all field-level defects
normalized by `normalizePaper`. -/
theorem c7_post_validation (body : Option JsVal) :
    (statusOf (POST body) = 400 ↔
      (body = none ∨ ∃ v, body = some v ∧ validShape v = false)) ∧
    (∀ v, body = some v → validShape v = true →
      ((∀ q ∈ questionsOf v, jsIsNull q = false) →
        POST body = PostResponse.pdfOk
          (buildPdfFromLines (buildPaperLines (normalizePaper v)))
          (safeFilename (rawTitle v) ++ ".pdf")) ∧
      ((∃ q ∈ questionsOf v, jsIsNull q = true) →
        POST body = PostResponse.uncaughtError)) ∧
    statusOf (POST (some zeroQuestionsBody)) = 400 := by
  refine ⟨?_, ?_, by decide⟩
  · cases body with
    | none => exact ⟨fun _ => Or.inl rfl, fun _ => rfl⟩
    | some v =>
      simp only [POST]
      by_cases h : validShape v = true
      · rw [if_pos h]
        constructor
        · intro hst
          cases hE : normalizePaperE v with
          | error e => rw [hE] at hst; simp [statusOf] at hst
          | ok paper => rw [hE] at hst; simp [statusOf] at hst
        · intro hr
          rcases hr with h0 | ⟨v1, hv1, hs1⟩
          · cases h0
          · have hv : v = v1 := by injection hv1
            rw [← hv, h] at hs1
            cases hs1
      · rw [if_neg h]
        exact ⟨fun _ => Or.inr ⟨v, rfl, by simpa using h⟩, fun _ => rfl⟩
  · intro v hv hs
    subst hv
    simp only [POST]
    rw [if_pos hs]
    constructor
    · intro hnone
      rw [normalizePaperE_ok hnone]
    · intro hex
      rw [normalizePaperE_error hex]

/-- Closed instance of `c7_post_validation`: a well-shaped body with no
`null` question element yields the 200 PDF response built from the
normalized paper. -/
theorem c7_post_validation_witness :
    validShape sampleBody = true ∧
    (∀ q ∈ questionsOf sampleBody, jsIsNull q = false) ∧
    POST (some sampleBody) = PostResponse.pdfOk
      (buildPdfFromLines (buildPaperLines (normalizePaper sampleBody)))
      (safeFilename (rawTitle sampleBody) ++ ".pdf") :=
  ⟨by decide, by decide,
   ((c7_post_validation (some sampleBody)).2.1 sampleBody rfl (by decide)).1 (by decide)⟩
